import Mathlib

/-!
Verification of the Decision-module and SARSA-loss core of the
PytorchRouting repository (files `PytorchRouting/DecisionLayers/Decision.py`
and `PytorchRouting/DecisionLayers/ReinforcementLearning/SARSA.py`).

The tensor substrate is shallowly embedded: a tensor is a shape (list of
dimension sizes), a flat data buffer of rationals, and a boolean `grad`
flag recording whether the tensor is still attached to the autograd
computation graph.  Tensor operations used by the two source files are
translated one-by-one; `detach` / `.data` clear the `grad` flag, and every
arithmetic operation propagates it, so "no gradient flows through x" is
expressed as "the result's `grad` flag does not depend on x's `grad` flag".
-/

/-- A (flattened) tensor: shape, row-major data buffer, and a flag telling
whether the tensor is attached to the autograd graph. -/
structure Tensor where
  shape : List Nat
  data : List Rat
  grad : Bool
deriving DecidableEq, Repr

namespace Tensor

/-- `t.unsqueeze(-1)`: append a trailing unit dimension. -/
def unsqueezeLast (t : Tensor) : Tensor :=
  ⟨t.shape ++ [1], t.data, t.grad⟩

/-- `t.unsqueeze(0)`: prepend a leading unit dimension. -/
def unsqueeze0 (t : Tensor) : Tensor :=
  ⟨1 :: t.shape, t.data, t.grad⟩

/-- `t.reshape(-1)`: flatten to one dimension whose size is the product of
all dimension sizes. -/
def reshapeFlat (t : Tensor) : Tensor :=
  ⟨[t.shape.prod], t.data, t.grad⟩

/-- `t.squeeze()`: drop all unit dimensions. -/
def squeezeAll (t : Tensor) : Tensor :=
  ⟨t.shape.filter (fun d => d != 1), t.data, t.grad⟩

/-- `t.detach()`: same tensor, detached from the computation graph. -/
def detach (t : Tensor) : Tensor :=
  ⟨t.shape, t.data, false⟩

/-- `t.data`: the underlying buffer as a tensor outside the computation
graph (no gradient tracking). -/
def dataView (t : Tensor) : Tensor :=
  ⟨t.shape, t.data, false⟩

/-- `t[:, j]` for a tensor of rank at least 2: select index `j` along
dimension 1.  Row `i` of the result is the `j`-th chunk of row `i` of `t`. -/
def index1 (t : Tensor) (j : Nat) : Tensor :=
  match t.shape with
  | d0 :: d1 :: rest =>
      ⟨d0 :: rest,
       (List.range d0).flatMap
         (fun i => ((t.data.drop (i * (d1 * rest.prod) + j * rest.prod)).take rest.prod)),
       t.grad⟩
  | _ => t

/-- `t - r` for a scalar `r` (broadcast subtraction). -/
def subScalar (t : Tensor) (r : Rat) : Tensor :=
  ⟨t.shape, t.data.map (fun x => x - r), t.grad⟩

/-- `torch.split(t, 1, dim=0)`: the list of size-1 slices along dimension 0. -/
def split1dim0 (t : Tensor) : List Tensor :=
  match t.shape with
  | [] => []
  | d0 :: rest =>
      (List.range d0).map
        (fun i => ⟨1 :: rest, (t.data.drop (i * rest.prod)).take rest.prod, t.grad⟩)

/-- Iterating over a tensor (`for a in t`): the slices along dimension 0,
with the leading dimension removed. -/
def unbind0 (t : Tensor) : List Tensor :=
  match t.shape with
  | [] => []
  | d0 :: rest =>
      (List.range d0).map
        (fun i => ⟨rest, (t.data.drop (i * rest.prod)).take rest.prod, t.grad⟩)

/-- `torch.cat(ts, dim=0)`: concatenate along dimension 0 (dimension sizes
add up, trailing dimensions taken from the first tensor). -/
def cat0 : List Tensor → Tensor
  | [] => ⟨[0], [], false⟩
  | t :: ts =>
      ⟨((t :: ts).map (fun u => u.shape.headD 0)).sum :: t.shape.tail,
       ((t :: ts).map Tensor.data).flatten,
       ((t :: ts).map Tensor.grad).any id⟩

end Tensor

/-- Pointwise Huber term of `F.smooth_l1_loss` (beta = 1):
`0.5 * d ^ 2` for `|d| < 1`, else `|d| - 0.5`. -/
def huber (x y : Rat) : Rat :=
  if |x - y| < 1 then (x - y) ^ 2 / 2 else |x - y| - 1 / 2

/-- `torch.nn.functional.smooth_l1_loss` with the default mean reduction:
elementwise Huber terms, averaged into a 0-dimensional tensor.  The result
stays in the computation graph iff one of the inputs does. -/
def smoothL1Loss (input target : Tensor) : Tensor :=
  let pairs := input.data.zip target.data
  ⟨[], [((pairs.map (fun p => huber p.1 p.2)).sum) / (pairs.length : Rat)],
   input.grad || target.grad⟩

/-- `torch.nn.functional.mse_loss` with the default mean reduction (an
alternative `bellman_loss_func` accepted by `Decision.__init__`). -/
def mseLoss (input target : Tensor) : Tensor :=
  let pairs := input.data.zip target.data
  ⟨[], [((pairs.map (fun p => (p.1 - p.2) ^ 2)).sum) / (pairs.length : Rat)],
   input.grad || target.grad⟩

/-- A trajectory sample handed to `_loss`: recorded state distribution,
action taken, reward, next state / next action (absent on terminal steps),
and the cumulative return. -/
structure Sample where
  state : Tensor
  action : Nat
  reward : Rat
  next_state : Tensor
  next_action : Option Nat
  cum_return : Tensor
deriving DecidableEq

/-- Modelled from the spec: the Trajectory Metadata Container (class
`MetaInformation`, whose file is not part of the corpus).  Per the spec it
holds one append-only ordered sequence per field; `Decision.forward` uses
the four core fields below.  Functions stored in `loss_funcs` and reward
objects stored in `reward_func` are recorded by identity, represented here
as numeric tags/references. -/
structure MetaContainer where
  actions : List Tensor
  states : List Tensor
  loss_funcs : List Nat
  reward_func : List Nat
deriving DecidableEq, Repr

/-- Modelled from the spec: class `PerActionBaseReward` (file
`PytorchRouting/RewardFunctions/PerAction/PerActionBaseReward.py` is not in
the corpus).  "register(distribution, action) records the pair" into the
object's internal registry. -/
structure PerActionBaseReward where
  registry : List (Tensor × Tensor)
deriving DecidableEq

/-- Modelled from the spec: `PerActionBaseReward.register(dist, action)`
appends the pair to the registry. -/
def PerActionBaseReward.register (r : PerActionBaseReward) (d a : Tensor) :
    PerActionBaseReward :=
  ⟨r.registry ++ [(d, a)]⟩

/-- The store of live `PerActionBaseReward` objects.  Python object
identity is modelled by an index into this store, so that aliasing (two
modules holding the same object) is observable. -/
abbrev RewardStore := List PerActionBaseReward

/-- Mutate the reward object at reference `ref` in place by registering
the pair `(d, a)` (no-op on a dangling reference). -/
def registerAt (store : RewardStore) (ref : Nat) (d a : Tensor) : RewardStore :=
  match store[ref]? with
  | some r => store.set ref (r.register d a)
  | none => store

/-- The instance state of a `Decision` module set up by `Decision.__init__`
(`Decision.py`, lines 24-48).  The `_policy` member (PolicyStorage) is
omitted: the PolicyStorage file is not in the corpus and none of the
verified claims reads it.  `rewardRef` is the reference to the module's
`additional_reward_func` object; `lossTag` is the identity of the bound
method `self._loss` that `forward` appends to `loss_funcs`. -/
structure Decision where
  num_selections : Nat
  in_features : Nat
  num_agents : Nat
  exploration : Rat
  detach : Bool
  rewardRef : Nat
  bellman_loss_func : Tensor → Tensor → Tensor
  lossTag : Nat

/-- Python evaluates the default argument `additional_reward_func =
PerActionBaseReward()` once, when `class Decision` is defined.  That single
shared object is modelled as the fixed reference `0` into the reward
store. -/
def defaultRewardRef : Nat := 0

/-- A reward store as it looks right after `class Decision` is defined:
reference `0` holds the one default `PerActionBaseReward()` instance
(empty registry). -/
def initStore : RewardStore := [⟨[]⟩]

/-- `Decision.__init__` (`Decision.py`, lines 24-48), restricted to the
fields the claims read.  Passing `none` for `additional_reward_func` means
the caller omitted the argument, so the module receives the shared default
object `defaultRewardRef` (Python default arguments are evaluated once at
definition time, not per call). -/
def Decision.init (num_selections in_features num_agents : Nat)
    (exploration : Rat) (detach : Bool) (additional_reward_func : Option Nat)
    (bellman_loss_func : Tensor → Tensor → Tensor) (lossTag : Nat) : Decision :=
  ⟨num_selections, in_features, num_agents, exploration, detach,
   additional_reward_func.getD defaultRewardRef, bellman_loss_func, lossTag⟩

/-- `SARSA._loss` (`SARSA.py`, lines 16-22).  Note that although
`Decision._loss` is declared as a static abstract method of one argument,
`SARSA` overrides it as `def _loss(self, sample)` and reads
`self.bellman_loss_func`, so the embedding takes the module. -/
def SARSA.loss (self : Decision) (sample : Sample) : Tensor :=
  let target :=
    match sample.next_action with
    | some na =>
        Tensor.subScalar (Tensor.index1 (Tensor.dataView sample.next_state) na)
          sample.reward
    | none => sample.cum_return
  let target := Tensor.detach target
  Tensor.unsqueeze0
    (self.bellman_loss_func
      (Tensor.squeezeAll (Tensor.index1 sample.state sample.action))
      (Tensor.squeezeAll target))

/-- Three-way `zip`, truncating at the shortest list — the semantics of
Python's builtin `zip` used twice inside `Decision.forward`. -/
def zip3 {α β γ : Type} : List α → List β → List γ → List (α × β × γ)
  | a :: as, b :: bs, c :: cs => (a, b, c) :: zip3 as bs cs
  | _, _, _ => []

/-- The rank normalization inlined in `Decision.forward`
(`Decision.py`, lines 102-105): a generating distribution with fewer than
3 dimensions gets one trailing unit dimension. -/
def normalizeDist (d : Tensor) : Tensor :=
  if d.shape.length < 3 then Tensor.unsqueezeLast d else d

/-- One iteration of the recording loop of `Decision.forward`
(`Decision.py`, lines 118-121): append the action, the generating
distribution, `self._loss` and `self.additional_reward_func` to the
sample's metadata container. -/
def Decision.appendStep (self : Decision) (a d : Tensor) (mx : MetaContainer) :
    MetaContainer :=
  ⟨mx.actions ++ [a], mx.states ++ [d],
   mx.loss_funcs ++ [self.lossTag], mx.reward_func ++ [self.rewardRef]⟩

/-- The recording loop of `Decision.forward` (`Decision.py`, lines
117-125) over the already-zipped items `(a, d, mx)`: per item, append the
four fields to `mx` and call
`self.additional_reward_func.register(d, a)`. -/
def Decision.recordGo (self : Decision) :
    List (Tensor × Tensor × MetaContainer) → RewardStore →
      List MetaContainer × RewardStore
  | [], store => ([], store)
  | item :: rest, store =>
      let mx' := Decision.appendStep self item.1 item.2.1 item.2.2
      let store' := registerAt store self.rewardRef item.2.1 item.1
      let r := Decision.recordGo self rest store'
      (mx' :: r.1, r.2)

/-- Lines 115-126 of `Decision.py`: flatten the actions tensor, run the
recording loop over `zip(actions, dists.split(1, dim=0), mxs)` (which
truncates at the shortest argument, leaving later containers untouched),
and return `ys, mxs, actions` together with the mutated reward store. -/
def Decision.record (self : Decision) (ys actions dists : Tensor)
    (mxs : List MetaContainer) (store : RewardStore) :
    Tensor × List MetaContainer × Tensor × RewardStore :=
  let acts := Tensor.reshapeFlat actions
  let items := zip3 (Tensor.unbind0 acts) (Tensor.split1dim0 dists) mxs
  let r := Decision.recordGo self items store
  (ys, r.1 ++ mxs.drop items.length, acts, r.2)

/-- The error message raised by `Decision.forward` when `num_agents > 1`
and `prior_actions` is missing (`Decision.py`, lines 95-98). -/
def priorActionsMsg : String :=
  "If multiple agents are available, argument `prior_actions` must be " ++
    "provided as a long Tensor of size (batch_size),\nwhere each entry " ++
    "determines the agent for that sample."

/-- The body of the per-row loop of the multi-agent branch
(`Decision.py`, lines 100-108): run `self._forward` on one row with the
row's prior action, then promote the generating distribution to rank 3 if
it has fewer than 3 dimensions. -/
def Decision.rowStep
    (fwd : Tensor → List MetaContainer → Nat → Tensor × Tensor × Tensor)
    (xmp : Tensor × MetaContainer × Nat) : Tensor × Tensor × Tensor :=
  let r := fwd xmp.1 [xmp.2.1] xmp.2.2
  (r.1, r.2.1, normalizeDist r.2.2)

/-- `Decision.forward` (`Decision.py`, lines 85-126).  The abstract
`self._forward` is a parameter `fwd` returning
`(ys, action, generating_dist)`.  The multi-agent branch checks
`prior_actions`, routes each row through `fwd` with its prior action and
normalizes each per-row distribution; the single-agent branch runs `fwd`
once on the whole batch with agent 0 and performs no normalization.  Both
branches then run the recording loop and return
`(ys, mxs, actions, store)`. -/
def Decision.forward
    (fwd : Tensor → List MetaContainer → Nat → Tensor × Tensor × Tensor)
    (self : Decision) (xs : Tensor) (mxs : List MetaContainer)
    (prior_actions : Option (List Nat)) (store : RewardStore) :
    Except String (Tensor × List MetaContainer × Tensor × RewardStore) :=
  if self.num_agents > 1 then
    match prior_actions with
    | none => Except.error priorActionsMsg
    | some pas =>
        Except.ok (Decision.record self
          (Tensor.cat0 (((zip3 (Tensor.split1dim0 xs) mxs pas).map
            (Decision.rowStep fwd)).map (fun t => t.1)))
          (Tensor.cat0 (((zip3 (Tensor.split1dim0 xs) mxs pas).map
            (Decision.rowStep fwd)).map (fun t => t.2.1)))
          (Tensor.cat0 (((zip3 (Tensor.split1dim0 xs) mxs pas).map
            (Decision.rowStep fwd)).map (fun t => t.2.2)))
          mxs store)
  else
    Except.ok (Decision.record self (fwd xs mxs 0).1 (fwd xs mxs 0).2.1
      (fwd xs mxs 0).2.2 mxs store)

/-! ### Evaluation lemmas for the SARSA loss -/

/-- Selecting action `a` of a recorded state of shape
`(batch = 1) × (actions = k) × (features = 1)` yields the single value
`st.data.getD a 0` in shape `(1, 1)`. -/
theorem Tensor.index1_eval (st : Tensor) (a k : Nat)
    (hsh : st.shape = [1, k, 1]) (hd : st.data.length = k) (ha : a < k) :
    Tensor.index1 st a = ⟨[1, 1], [st.data.getD a 0], st.grad⟩ := by
  obtain ⟨sh, da, g⟩ := st
  simp only at hsh hd
  subst hsh
  simp only [Tensor.index1, List.prod_cons, List.prod_nil, mul_one,
    Nat.zero_mul, Nat.zero_add, one_mul]
  have hrange : List.range 1 = [0] := rfl
  rw [hrange]
  simp only [List.flatMap_cons, List.flatMap_nil, List.append_nil,
    Nat.zero_mul, Nat.zero_add, mul_one]
  have halt : a < da.length := by omega
  have htake : List.take 1 (List.drop a da) = [da.get ⟨a, halt⟩] := by
    rw [List.drop_eq_getElem_cons halt]
    rfl
  simp [List.getD_eq_getElem?_getD, List.getElem?_eq_getElem halt, htake]

/-- `squeeze` of the selected state value: shape collapses to rank 0. -/
theorem Tensor.squeeze_index1_eval (st : Tensor) (a k : Nat)
    (hsh : st.shape = [1, k, 1]) (hd : st.data.length = k) (ha : a < k) :
    Tensor.squeezeAll (Tensor.index1 st a) = ⟨[], [st.data.getD a 0], st.grad⟩ := by
  rw [Tensor.index1_eval st a k hsh hd ha]
  rfl

/-- Evaluation of the SARSA bootstrap target
`sample.next_state.data[:, next_action] - reward`, detached and squeezed:
a rank-0 tensor holding `next_state.data.getD na 0 - reward`, outside the
computation graph. -/
theorem sarsa_target_eval (nst : Tensor) (na k : Nat) (r : Rat)
    (hsh : nst.shape = [1, k, 1]) (hd : nst.data.length = k) (hna : na < k) :
    Tensor.squeezeAll (Tensor.detach
      (Tensor.subScalar (Tensor.index1 (Tensor.dataView nst) na) r)) =
      ⟨[], [nst.data.getD na 0 - r], false⟩ := by
  have h := Tensor.index1_eval (Tensor.dataView nst) na k hsh hd hna
  rw [show Tensor.index1 (Tensor.dataView nst) na =
      ⟨[1, 1], [nst.data.getD na 0], false⟩ from h]
  rfl

/-- `smooth_l1_loss` of two rank-0 tensors is the Huber term of their
values; the result is attached to the graph iff an input is. -/
theorem smoothL1Loss_single (x y : Rat) (g h : Bool) :
    smoothL1Loss ⟨[], [x], g⟩ ⟨[], [y], h⟩ = ⟨[], [huber x y], g || h⟩ := by
  simp [smoothL1Loss]

/-- `mse_loss` of two rank-0 tensors is the squared difference of their
values. -/
theorem mseLoss_single (x y : Rat) (g h : Bool) :
    mseLoss ⟨[], [x], g⟩ ⟨[], [y], h⟩ = ⟨[], [(x - y) ^ 2], g || h⟩ := by
  simp [mseLoss]

/-- Full evaluation of `SARSA._loss` on a non-terminal sample for a module
whose `bellman_loss_func` is the default `F.smooth_l1_loss`: the result is
a rank-1 tensor of length one holding the Huber regression between the
recorded state value at the taken action and the bootstrap target
`next_state[next_action] - reward`; its graph attachment is exactly that
of the recorded state (the target is detached). -/
theorem sarsa_loss_eval_smooth (m : Decision) (st nst cr : Tensor)
    (a na k k' : Nat) (r : Rat)
    (hblf : m.bellman_loss_func = smoothL1Loss)
    (hst : st.shape = [1, k, 1]) (hstd : st.data.length = k) (ha : a < k)
    (hnst : nst.shape = [1, k', 1]) (hnd : nst.data.length = k') (hna : na < k') :
    SARSA.loss m ⟨st, a, r, nst, some na, cr⟩ =
      ⟨[1], [huber (st.data.getD a 0) (nst.data.getD na 0 - r)], st.grad⟩ := by
  unfold SARSA.loss
  simp only [hblf]
  rw [show Tensor.detach
        (Tensor.subScalar (Tensor.index1 (Tensor.dataView nst) na) r) =
        Tensor.detach (Tensor.detach
          (Tensor.subScalar (Tensor.index1 (Tensor.dataView nst) na) r)) from rfl]
  rw [Tensor.squeeze_index1_eval st a k hst hstd ha]
  rw [show Tensor.squeezeAll (Tensor.detach (Tensor.detach
      (Tensor.subScalar (Tensor.index1 (Tensor.dataView nst) na) r))) =
      Tensor.squeezeAll (Tensor.detach
        (Tensor.subScalar (Tensor.index1 (Tensor.dataView nst) na) r)) from rfl]
  rw [sarsa_target_eval nst na k' r hnst hnd hna]
  rw [smoothL1Loss_single]
  simp [Tensor.unsqueeze0]

/-- Evaluation of `SARSA._loss` on a non-terminal sample for a module
whose `bellman_loss_func` is `F.mse_loss`. -/
theorem sarsa_loss_eval_mse (m : Decision) (st nst cr : Tensor)
    (a na k k' : Nat) (r : Rat)
    (hblf : m.bellman_loss_func = mseLoss)
    (hst : st.shape = [1, k, 1]) (hstd : st.data.length = k) (ha : a < k)
    (hnst : nst.shape = [1, k', 1]) (hnd : nst.data.length = k') (hna : na < k') :
    SARSA.loss m ⟨st, a, r, nst, some na, cr⟩ =
      ⟨[1], [(st.data.getD a 0 - (nst.data.getD na 0 - r)) ^ 2], st.grad⟩ := by
  unfold SARSA.loss
  simp only [hblf]
  rw [Tensor.squeeze_index1_eval st a k hst hstd ha]
  rw [show Tensor.detach
        (Tensor.subScalar (Tensor.index1 (Tensor.dataView nst) na) r) =
        Tensor.detach (Tensor.detach
          (Tensor.subScalar (Tensor.index1 (Tensor.dataView nst) na) r)) from rfl]
  rw [show Tensor.squeezeAll (Tensor.detach (Tensor.detach
      (Tensor.subScalar (Tensor.index1 (Tensor.dataView nst) na) r))) =
      Tensor.squeezeAll (Tensor.detach
        (Tensor.subScalar (Tensor.index1 (Tensor.dataView nst) na) r)) from rfl]
  rw [sarsa_target_eval nst na k' r hnst hnd hna]
  rw [mseLoss_single]
  simp [Tensor.unsqueeze0]

/-! ### Claims about `SARSA._loss` -/

/-- C1: for every non-terminal trajectory sample (`next_action` is not
`None`), `SARSA._loss` computes its bootstrap target as
`next_state[next_action] - reward`, detaches the target from the
computation graph (the result's graph attachment is `st.grad` alone, with
no dependence on `next_state.grad`), and returns `bellman_loss_func`
(here the default `F.smooth_l1_loss`) of the recorded state value at the
taken action versus that target, as a rank-1 tensor of length 1. -/
theorem sarsa_loss_nonterminal_spec (m : Decision) (st nst cr : Tensor)
    (a na k k' : Nat) (r : Rat)
    (hblf : m.bellman_loss_func = smoothL1Loss)
    (hst : st.shape = [1, k, 1]) (hstd : st.data.length = k) (ha : a < k)
    (hnst : nst.shape = [1, k', 1]) (hnd : nst.data.length = k') (hna : na < k') :
    SARSA.loss m ⟨st, a, r, nst, some na, cr⟩ =
      ⟨[1], [huber (st.data.getD a 0) (nst.data.getD na 0 - r)], st.grad⟩ :=
  sarsa_loss_eval_smooth m st nst cr a na k k' r hblf hst hstd ha hnst hnd hna

/-- Witness for C1 at a concrete sample: state value 2, next-state value 2,
reward 0, so the Huber loss is 0; the recorded state is attached to the
graph (`grad = true`) and so is the loss, while the target side
(`next_state`, also `grad = true`) does not contribute. -/
theorem sarsa_loss_nonterminal_spec_witness :
    SARSA.loss ⟨2, 3, 1, 0, true, 0, smoothL1Loss, 7⟩
      ⟨⟨[1, 1, 1], [2], true⟩, 0, 0, ⟨[1, 1, 1], [2], true⟩, some 0,
        ⟨[], [0], false⟩⟩ = ⟨[1], [0], true⟩ :=
  (sarsa_loss_nonterminal_spec ⟨2, 3, 1, 0, true, 0, smoothL1Loss, 7⟩
    ⟨[1, 1, 1], [2], true⟩ ⟨[1, 1, 1], [2], true⟩ ⟨[], [0], false⟩
    0 0 1 1 0 rfl rfl rfl (by decide) rfl rfl (by decide)).trans
    (by norm_num [huber, List.getD])

/-- C7: on a terminal sample (`next_action is None`) `SARSA._loss` uses
`cum_return` exactly as the target, and the loss does not depend on any
`next_state` value. -/
theorem sarsa_loss_terminal_spec (m : Decision) (st : Tensor) (a : Nat)
    (r : Rat) (ns ns' cr : Tensor) :
    SARSA.loss m ⟨st, a, r, ns, none, cr⟩ =
      Tensor.unsqueeze0 (m.bellman_loss_func
        (Tensor.squeezeAll (Tensor.index1 st a))
        (Tensor.squeezeAll (Tensor.detach cr)))
    ∧ SARSA.loss m ⟨st, a, r, ns, none, cr⟩ =
        SARSA.loss m ⟨st, a, r, ns', none, cr⟩ :=
  ⟨rfl, rfl⟩

/-- C8: the rank normalization in `Decision.forward` is idempotent — a
generating distribution that already has rank 3 is left unchanged (no
further trailing unit dimension is added before recording). -/
theorem normalizeDist_rank3_fixed (d : Tensor) (h : d.shape.length = 3) :
    normalizeDist d = d ∧ normalizeDist (normalizeDist d) = normalizeDist d := by
  have h3 : ¬ d.shape.length < 3 := by omega
  constructor
  · simp [normalizeDist, h3]
  · simp [normalizeDist, h3]

/-- Witness for C8 at the concrete rank-3 distribution `(1, 2, 1)`. -/
theorem normalizeDist_rank3_fixed_witness :
    normalizeDist ⟨[1, 2, 1], [0, 0], false⟩ = ⟨[1, 2, 1], [0, 0], false⟩
    ∧ normalizeDist (normalizeDist ⟨[1, 2, 1], [0, 0], false⟩) =
        normalizeDist ⟨[1, 2, 1], [0, 0], false⟩ :=
  normalizeDist_rank3_fixed ⟨[1, 2, 1], [0, 0], false⟩ rfl

/-- Counterexample to C9: `SARSA._loss` is not a static function of the
sample alone — it reads the module's `bellman_loss_func`.  Two modules
differing only in that field give different losses on the same sample
(`F.smooth_l1_loss` vs `F.mse_loss`: 1/2 vs 1). -/
theorem sarsa_loss_reads_instance_state :
    SARSA.loss ⟨2, 3, 1, 0, true, 0, smoothL1Loss, 7⟩
        ⟨⟨[1, 1, 1], [2], false⟩, 0, 1, ⟨[1, 1, 1], [2], false⟩, some 0,
          ⟨[], [0], false⟩⟩ ≠
      SARSA.loss ⟨2, 3, 1, 0, true, 0, mseLoss, 7⟩
        ⟨⟨[1, 1, 1], [2], false⟩, 0, 1, ⟨[1, 1, 1], [2], false⟩, some 0,
          ⟨[], [0], false⟩⟩ := by
  rw [sarsa_loss_eval_smooth ⟨2, 3, 1, 0, true, 0, smoothL1Loss, 7⟩
    ⟨[1, 1, 1], [2], false⟩ ⟨[1, 1, 1], [2], false⟩ ⟨[], [0], false⟩
    0 0 1 1 1 rfl rfl rfl (by decide) rfl rfl (by decide)]
  rw [sarsa_loss_eval_mse ⟨2, 3, 1, 0, true, 0, mseLoss, 7⟩
    ⟨[1, 1, 1], [2], false⟩ ⟨[1, 1, 1], [2], false⟩ ⟨[], [0], false⟩
    0 0 1 1 1 rfl rfl rfl (by decide) rfl rfl (by decide)]
  simp only [Tensor.mk.injEq]
  norm_num [huber, List.getD]

/-- C9 amended: `Decision` declares `_loss` as a static method of the
sample alone, but `SARSA` overrides it as an instance method reading
`self.bellman_loss_func`; the result depends on no other instance state,
so two modules with the same `bellman_loss_func` produce identical losses
on every sample. -/
theorem sarsa_loss_determined_by_bellman (m1 m2 : Decision)
    (h : m1.bellman_loss_func = m2.bellman_loss_func) (s : Sample) :
    SARSA.loss m1 s = SARSA.loss m2 s := by
  unfold SARSA.loss
  rw [h]

/-- Witness for the amended C9: two modules differing in every field
except `bellman_loss_func` agree on a concrete sample. -/
theorem sarsa_loss_determined_by_bellman_witness :
    SARSA.loss ⟨2, 3, 1, 0, true, 0, smoothL1Loss, 7⟩
        ⟨⟨[1, 1, 1], [2], false⟩, 0, 1, ⟨[1, 1, 1], [2], false⟩, some 0,
          ⟨[], [0], false⟩⟩ =
      SARSA.loss ⟨5, 8, 4, 1, false, 3, smoothL1Loss, 9⟩
        ⟨⟨[1, 1, 1], [2], false⟩, 0, 1, ⟨[1, 1, 1], [2], false⟩, some 0,
          ⟨[], [0], false⟩⟩ :=
  sarsa_loss_determined_by_bellman ⟨2, 3, 1, 0, true, 0, smoothL1Loss, 7⟩
    ⟨5, 8, 4, 1, false, 3, smoothL1Loss, 9⟩ rfl
    ⟨⟨[1, 1, 1], [2], false⟩, 0, 1, ⟨[1, 1, 1], [2], false⟩, some 0,
      ⟨[], [0], false⟩⟩

/-! ### Structural lemmas about `zip3`, tensor shapes and the recording loop -/

theorem zip3_nil_left {α β γ : Type} (bs : List β) (cs : List γ) :
    zip3 ([] : List α) bs cs = [] := rfl

theorem zip3_nil_mid {α β γ : Type} (a : α) (as : List α) (cs : List γ) :
    zip3 (a :: as) ([] : List β) cs = [] := rfl

theorem zip3_nil_right {α β γ : Type} (a : α) (as : List α) (b : β) (bs : List β) :
    zip3 (a :: as) (b :: bs) ([] : List γ) = [] := rfl

theorem zip3_cons {α β γ : Type} (a : α) (as : List α) (b : β) (bs : List β)
    (c : γ) (cs : List γ) :
    zip3 (a :: as) (b :: bs) (c :: cs) = (a, b, c) :: zip3 as bs cs := rfl

theorem zip3_length {α β γ : Type} :
    ∀ (as : List α) (bs : List β) (cs : List γ),
      (zip3 as bs cs).length = min as.length (min bs.length cs.length) := by
  intro as
  induction as with
  | nil => intro bs cs; simp [zip3_nil_left]
  | cons a as ih =>
      intro bs cs
      cases bs with
      | nil => simp [zip3_nil_mid]
      | cons b bs =>
          cases cs with
          | nil => simp [zip3_nil_right]
          | cons c cs =>
              simp only [zip3_cons, List.length_cons, ih, Nat.succ_min_succ]

theorem zip3_mem {α β γ : Type} :
    ∀ (as : List α) (bs : List β) (cs : List γ) (x : α × β × γ),
      x ∈ zip3 as bs cs → x.1 ∈ as ∧ x.2.1 ∈ bs ∧ x.2.2 ∈ cs := by
  intro as
  induction as with
  | nil => intro bs cs x h; rw [zip3_nil_left] at h; cases h
  | cons a as ih =>
      intro bs cs x h
      cases bs with
      | nil => rw [zip3_nil_mid] at h; cases h
      | cons b bs =>
          cases cs with
          | nil => rw [zip3_nil_right] at h; cases h
          | cons c cs =>
              rw [zip3_cons] at h
              rcases List.mem_cons.mp h with h1 | h2
              · subst h1; exact ⟨List.mem_cons_self a as, List.mem_cons_self b bs,
                  List.mem_cons_self c cs⟩
              · obtain ⟨p1, p2, p3⟩ := ih bs cs x h2
                exact ⟨List.mem_cons_of_mem a p1, List.mem_cons_of_mem b p2,
                  List.mem_cons_of_mem c p3⟩

theorem forall₂_zip3_take {α β γ δ : Type} (R : δ → γ → Prop) (f : α × β × γ → δ)
    (hR : ∀ x : α × β × γ, R (f x) x.2.2) :
    ∀ (as : List α) (bs : List β) (cs : List γ),
      List.Forall₂ R ((zip3 as bs cs).map f) (cs.take (zip3 as bs cs).length) := by
  intro as
  induction as with
  | nil => intro bs cs; rw [zip3_nil_left]; exact List.Forall₂.nil
  | cons a as ih =>
      intro bs cs
      cases bs with
      | nil => rw [zip3_nil_mid]; exact List.Forall₂.nil
      | cons b bs =>
          cases cs with
          | nil => rw [zip3_nil_right]; exact List.Forall₂.nil
          | cons c cs =>
              rw [zip3_cons]
              simp only [List.map_cons, List.length_cons, List.take_succ_cons]
              exact List.Forall₂.cons (hR (a, b, c)) (ih bs cs)

theorem forall₂_zip3_append {α β γ : Type} (R : γ → γ → Prop) (f : α × β × γ → γ)
    (hrefl : ∀ c, R c c) :
    ∀ (as : List α) (bs : List β) (cs : List γ),
      (∀ x ∈ zip3 as bs cs, R (f x) x.2.2) →
      List.Forall₂ R ((zip3 as bs cs).map f ++ cs.drop (zip3 as bs cs).length) cs := by
  intro as
  induction as with
  | nil =>
      intro bs cs h
      rw [zip3_nil_left]
      simpa using List.forall₂_same.mpr (fun c _ => hrefl c)
  | cons a as ih =>
      intro bs cs h
      cases bs with
      | nil =>
          rw [zip3_nil_mid]
          simpa using List.forall₂_same.mpr (fun c _ => hrefl c)
      | cons b bs =>
          cases cs with
          | nil =>
              rw [zip3_nil_right]
              exact List.Forall₂.nil
          | cons c cs =>
              rw [zip3_cons] at h ⊢
              simp only [List.map_cons, List.length_cons, List.drop_succ_cons,
                List.cons_append]
              refine List.Forall₂.cons (h (a, b, c) (List.mem_cons_self _ _)) ?_
              exact ih bs cs (fun x hx => h x (List.mem_cons_of_mem _ hx))

theorem Tensor.unbind0_length (t : Tensor) :
    (Tensor.unbind0 t).length = t.shape.headD 0 := by
  obtain ⟨sh, da, g⟩ := t
  cases sh with
  | nil => rfl
  | cons d0 rest => simp [Tensor.unbind0]

theorem Tensor.split1dim0_length (t : Tensor) :
    (Tensor.split1dim0 t).length = t.shape.headD 0 := by
  obtain ⟨sh, da, g⟩ := t
  cases sh with
  | nil => rfl
  | cons d0 rest => simp [Tensor.split1dim0]

theorem Tensor.split1dim0_shape (t : Tensor) :
    ∀ s ∈ Tensor.split1dim0 t, s.shape = 1 :: t.shape.tail := by
  obtain ⟨sh, da, g⟩ := t
  cases sh with
  | nil => intro s hs; cases hs
  | cons d0 rest =>
      intro s hs
      simp only [Tensor.split1dim0, List.mem_map, List.mem_range] at hs
      obtain ⟨i, _, rfl⟩ := hs
      rfl

theorem sum_map_headD_ones (ts : List Tensor)
    (h : ∀ t ∈ ts, t.shape.headD 0 = 1) :
    (ts.map (fun u => u.shape.headD 0)).sum = ts.length := by
  induction ts with
  | nil => rfl
  | cons t ts ih =>
      simp only [List.map_cons, List.sum_cons, List.length_cons,
        h t (List.mem_cons_self t ts),
        ih (fun u hu => h u (List.mem_cons_of_mem t hu))]
      omega

/-- A tensor whose leading dimension is 1 has a `cons` shape starting
with 1. -/
theorem shape_of_headD_one (t : Tensor) (h : t.shape.headD 0 = 1) :
    t.shape = 1 :: t.shape.tail := by
  cases hs : t.shape with
  | nil => rw [hs] at h; cases h
  | cons d0 rest => rw [hs] at h; simp at h; simp [h]

theorem Tensor.cat0_headD_of_unit_rows (ts : List Tensor)
    (h : ∀ t ∈ ts, t.shape.headD 0 = 1) :
    (Tensor.cat0 ts).shape.headD 0 = ts.length := by
  cases ts with
  | nil => rfl
  | cons t ts' =>
      simp only [Tensor.cat0, List.headD_cons]
      exact sum_map_headD_ones _ h

theorem Tensor.cat0_prod_of_unit_rows (ts : List Tensor)
    (h : ∀ t ∈ ts, t.shape.headD 0 = 1 ∧ t.shape.prod = 1) :
    (Tensor.cat0 ts).shape.prod = ts.length := by
  cases ts with
  | nil => rfl
  | cons t ts' =>
      have h1 := (h t (List.mem_cons_self t ts')).1
      have h2 := (h t (List.mem_cons_self t ts')).2
      have hsh := shape_of_headD_one t h1
      have htail : t.shape.tail.prod = 1 := by
        rw [hsh] at h2
        simpa using h2
      simp only [Tensor.cat0, List.prod_cons, htail, mul_one]
      exact sum_map_headD_ones _ (fun u hu => (h u hu).1)

theorem normalizeDist_headD (d : Tensor) (h : d.shape.headD 0 = 1) :
    (normalizeDist d).shape.headD 0 = 1 := by
  have hsh := shape_of_headD_one d h
  unfold normalizeDist
  by_cases h3 : d.shape.length < 3
  · rw [if_pos h3]
    simp only [Tensor.unsqueezeLast]
    rw [hsh]
    rfl
  · rw [if_neg h3]; exact h

theorem normalizeDist_rank2 (d : Tensor) (h : d.shape.length = 2) :
    (normalizeDist d).shape.length = 3 := by
  unfold normalizeDist
  rw [if_pos (by omega)]
  simp [Tensor.unsqueezeLast, h]

theorem Decision.recordGo_fst (self : Decision) :
    ∀ (items : List (Tensor × Tensor × MetaContainer)) (store : RewardStore),
      (Decision.recordGo self items store).1 =
        items.map (fun i => Decision.appendStep self i.1 i.2.1 i.2.2) := by
  intro items
  induction items with
  | nil => intro store; rfl
  | cons i rest ih =>
      intro store
      simp only [Decision.recordGo, List.map_cons]
      rw [ih]

theorem Decision.recordGo_snd (self : Decision) :
    ∀ (items : List (Tensor × Tensor × MetaContainer)) (store : RewardStore),
      (Decision.recordGo self items store).2 =
        items.foldl (fun st i => registerAt st self.rewardRef i.2.1 i.1) store := by
  intro items
  induction items with
  | nil => intro store; rfl
  | cons i rest ih =>
      intro store
      simp only [Decision.recordGo, List.foldl_cons]
      rw [ih]

theorem Decision.record_mxs (self : Decision) (ys actions dists : Tensor)
    (mxs : List MetaContainer) (store : RewardStore) :
    (Decision.record self ys actions dists mxs store).2.1 =
      (zip3 (Tensor.unbind0 (Tensor.reshapeFlat actions))
          (Tensor.split1dim0 dists) mxs).map
        (fun i => Decision.appendStep self i.1 i.2.1 i.2.2)
      ++ mxs.drop
          (zip3 (Tensor.unbind0 (Tensor.reshapeFlat actions))
            (Tensor.split1dim0 dists) mxs).length := by
  simp only [Decision.record]
  rw [Decision.recordGo_fst]

theorem Decision.record_acts (self : Decision) (ys actions dists : Tensor)
    (mxs : List MetaContainer) (store : RewardStore) :
    (Decision.record self ys actions dists mxs store).2.2.1 =
      Tensor.reshapeFlat actions := rfl

theorem Decision.record_store (self : Decision) (ys actions dists : Tensor)
    (mxs : List MetaContainer) (store : RewardStore) :
    (Decision.record self ys actions dists mxs store).2.2.2 =
      (zip3 (Tensor.unbind0 (Tensor.reshapeFlat actions))
          (Tensor.split1dim0 dists) mxs).foldl
        (fun st i => registerAt st self.rewardRef i.2.1 i.1) store := by
  simp only [Decision.record]
  rw [Decision.recordGo_snd]

/-- One `Decision.forward` call grows every core field of a container by
exactly one entry. -/
def growsByOne (mxN mxO : MetaContainer) : Prop :=
  mxN.actions.length = mxO.actions.length + 1 ∧
  mxN.states.length = mxO.states.length + 1 ∧
  mxN.loss_funcs.length = mxO.loss_funcs.length + 1 ∧
  mxN.reward_func.length = mxO.reward_func.length + 1

/-- Shape discipline of a `_forward` implementation (the spec's contract
for subclasses): on every input it returns one action value per batch row
(action tensor with leading dimension and element count equal to the batch
size) and a generating distribution with one row per batch row. -/
def FwdShapeOk
    (fwd : Tensor → List MetaContainer → Nat → Tensor × Tensor × Tensor) : Prop :=
  ∀ x m pa,
    ((fwd x m pa).2.1.shape.headD 0 = x.shape.headD 0) ∧
    ((fwd x m pa).2.1.shape.prod = x.shape.headD 0) ∧
    ((fwd x m pa).2.2.shape.headD 0 = x.shape.headD 0)

theorem growsByOne_appendStep (self : Decision) (x : Tensor × Tensor × MetaContainer) :
    growsByOne (Decision.appendStep self x.1 x.2.1 x.2.2) x.2.2 := by
  simp [growsByOne, Decision.appendStep]

theorem record_items_length (actions dists : Tensor)
    (mxs : List MetaContainer) :
    (zip3 (Tensor.unbind0 (Tensor.reshapeFlat actions))
      (Tensor.split1dim0 dists) mxs).length =
      min actions.shape.prod (min (dists.shape.headD 0) mxs.length) := by
  rw [zip3_length, Tensor.unbind0_length, Tensor.split1dim0_length]
  rfl

/-- Take/drop decomposition of the containers returned by the recording
phase: the first `k` containers (where `k` bounds both the action count
and the distribution row count) are grown by one step, the rest are
returned untouched. -/
theorem Decision.record_take_drop (self : Decision) (ys actions dists : Tensor)
    (mxs : List MetaContainer) (store : RewardStore) (k : Nat)
    (hA : actions.shape.prod = k) (hD : dists.shape.headD 0 = k)
    (hk : k ≤ mxs.length) :
    (Decision.record self ys actions dists mxs store).2.1.drop k = mxs.drop k
    ∧ List.Forall₂ growsByOne
        ((Decision.record self ys actions dists mxs store).2.1.take k)
        (mxs.take k) := by
  have hlen := record_items_length actions dists mxs
  rw [hA, hD] at hlen
  have hlen' : (zip3 (Tensor.unbind0 (Tensor.reshapeFlat actions))
      (Tensor.split1dim0 dists) mxs).length = k := by omega
  have hmap : ((zip3 (Tensor.unbind0 (Tensor.reshapeFlat actions))
      (Tensor.split1dim0 dists) mxs).map
        (fun i => Decision.appendStep self i.1 i.2.1 i.2.2)).length = k := by
    rw [List.length_map]; exact hlen'
  constructor
  · rw [Decision.record_mxs, hlen', List.drop_left' hmap]
  · rw [Decision.record_mxs, hlen', List.take_left' hmap]
    have := forall₂_zip3_take growsByOne
      (fun i => Decision.appendStep self i.1 i.2.1 i.2.2)
      (fun x => growsByOne_appendStep self x)
      (Tensor.unbind0 (Tensor.reshapeFlat actions))
      (Tensor.split1dim0 dists) mxs
    rwa [hlen'] at this

theorem Decision.record_mxs_length (self : Decision) (ys actions dists : Tensor)
    (mxs : List MetaContainer) (store : RewardStore) :
    (Decision.record self ys actions dists mxs store).2.1.length = mxs.length := by
  rw [Decision.record_mxs]
  have h := record_items_length actions dists mxs
  simp only [List.length_append, List.length_map, List.length_drop, h]
  omega

theorem Decision.record_forall₂_full (self : Decision) (ys actions dists : Tensor)
    (mxs : List MetaContainer) (store : RewardStore)
    (hA : actions.shape.prod = mxs.length) (hD : dists.shape.headD 0 = mxs.length) :
    List.Forall₂ growsByOne
      (Decision.record self ys actions dists mxs store).2.1 mxs := by
  have h := (Decision.record_take_drop self ys actions dists mxs store mxs.length
    hA hD (le_refl _)).2
  have hlen := Decision.record_mxs_length self ys actions dists mxs store
  rwa [← hlen, List.take_length, hlen, List.take_length] at h

theorem Decision.record_acts_shape (self : Decision) (ys actions dists : Tensor)
    (mxs : List MetaContainer) (store : RewardStore) (k : Nat)
    (hA : actions.shape.prod = k) :
    (Decision.record self ys actions dists mxs store).2.2.1.shape = [k] := by
  rw [Decision.record_acts]
  simp [Tensor.reshapeFlat, hA]

/-- The number of pairs registered so far in the reward object at
reference `ref`. -/
def registryLenAt (store : RewardStore) (ref : Nat) : Nat :=
  ((store.getD ref ⟨[]⟩).registry).length

theorem registerAt_length (store : RewardStore) (ref : Nat) (d a : Tensor) :
    (registerAt store ref d a).length = store.length := by
  unfold registerAt
  split
  · exact List.length_set store ref _
  · rfl

theorem registryLenAt_registerAt_self (store : RewardStore) (ref : Nat)
    (d a : Tensor) (h : ref < store.length) :
    registryLenAt (registerAt store ref d a) ref = registryLenAt store ref + 1 := by
  unfold registerAt
  split
  · rename_i x heq
    unfold registryLenAt
    rw [List.getD_eq_getElem?_getD, List.getElem?_set_self h, Option.getD_some]
    rw [List.getD_eq_getElem?_getD, heq, Option.getD_some]
    simp [PerActionBaseReward.register]
  · rename_i heq
    rw [List.getElem?_eq_getElem h] at heq
    cases heq

theorem registryLenAt_foldl (ref : Nat) :
    ∀ (items : List (Tensor × Tensor × MetaContainer)) (store : RewardStore),
      ref < store.length →
      registryLenAt
        (items.foldl (fun st i => registerAt st ref i.2.1 i.1) store) ref =
        registryLenAt store ref + items.length := by
  intro items
  induction items with
  | nil => intro store _; rfl
  | cons i rest ih =>
      intro store h
      simp only [List.foldl_cons, List.length_cons]
      rw [ih _ (by rw [registerAt_length]; exact h)]
      rw [registryLenAt_registerAt_self store ref _ _ h]
      omega

/-- The recording phase registers one `(dist, action)` pair per recorded
step into the module's reward object. -/
theorem Decision.record_registryLen (self : Decision) (ys actions dists : Tensor)
    (mxs : List MetaContainer) (store : RewardStore) (k : Nat)
    (hA : actions.shape.prod = k) (hD : dists.shape.headD 0 = k)
    (hk : k ≤ mxs.length) (href : self.rewardRef < store.length) :
    registryLenAt (Decision.record self ys actions dists mxs store).2.2.2
        self.rewardRef =
      registryLenAt store self.rewardRef + k := by
  rw [Decision.record_store]
  rw [registryLenAt_foldl self.rewardRef _ store href]
  have hlen := record_items_length actions dists mxs
  rw [hA, hD] at hlen
  have : (zip3 (Tensor.unbind0 (Tensor.reshapeFlat actions))
      (Tensor.split1dim0 dists) mxs).length = k := by omega
  rw [this]

/-- In the multi-agent branch every per-row action tensor covers exactly
one batch row: leading dimension 1 and a single element. -/
theorem multiAgent_actions_cond
    (fwd : Tensor → List MetaContainer → Nat → Tensor × Tensor × Tensor)
    (xs : Tensor) (mxs : List MetaContainer) (l : List Nat)
    (hfwd : FwdShapeOk fwd) :
    ∀ t ∈ ((zip3 (Tensor.split1dim0 xs) mxs l).map
        (Decision.rowStep fwd)).map (fun t => t.2.1),
      t.shape.headD 0 = 1 ∧ t.shape.prod = 1 := by
  intro t ht
  rw [List.mem_map] at ht
  obtain ⟨u, hu, rfl⟩ := ht
  rw [List.mem_map] at hu
  obtain ⟨x, hx, rfl⟩ := hu
  have hx1 : x.1 ∈ Tensor.split1dim0 xs := (zip3_mem _ _ _ x hx).1
  have hsh : x.1.shape = 1 :: xs.shape.tail := Tensor.split1dim0_shape xs x.1 hx1
  have hhd : x.1.shape.headD 0 = 1 := by rw [hsh]; rfl
  have h := hfwd x.1 [x.2.1] x.2.2
  constructor
  · show (fwd x.1 [x.2.1] x.2.2).2.1.shape.headD 0 = 1
    rw [h.1, hhd]
  · show (fwd x.1 [x.2.1] x.2.2).2.1.shape.prod = 1
    rw [h.2.1, hhd]

/-- In the multi-agent branch every per-row (normalized) generating
distribution has leading dimension 1. -/
theorem multiAgent_dists_cond
    (fwd : Tensor → List MetaContainer → Nat → Tensor × Tensor × Tensor)
    (xs : Tensor) (mxs : List MetaContainer) (l : List Nat)
    (hfwd : FwdShapeOk fwd) :
    ∀ t ∈ ((zip3 (Tensor.split1dim0 xs) mxs l).map
        (Decision.rowStep fwd)).map (fun t => t.2.2),
      t.shape.headD 0 = 1 := by
  intro t ht
  rw [List.mem_map] at ht
  obtain ⟨u, hu, rfl⟩ := ht
  rw [List.mem_map] at hu
  obtain ⟨x, hx, rfl⟩ := hu
  have hx1 : x.1 ∈ Tensor.split1dim0 xs := (zip3_mem _ _ _ x hx).1
  have hsh : x.1.shape = 1 :: xs.shape.tail := Tensor.split1dim0_shape xs x.1 hx1
  have hhd : x.1.shape.headD 0 = 1 := by rw [hsh]; rfl
  show (normalizeDist (fwd x.1 [x.2.1] x.2.2).2.2).shape.headD 0 = 1
  exact normalizeDist_headD _ (by rw [(hfwd x.1 [x.2.1] x.2.2).2.2, hhd])

/-- Both branches of a successful `Decision.forward` call reduce to the
recording phase applied to an actions tensor with `batch`-many elements
and a distribution tensor with `batch`-many rows. -/
theorem forward_ok_coverage
    (fwd : Tensor → List MetaContainer → Nat → Tensor × Tensor × Tensor)
    (self : Decision) (xs : Tensor) (mxs : List MetaContainer)
    (pas : Option (List Nat)) (store : RewardStore)
    (r : Tensor × List MetaContainer × Tensor × RewardStore)
    (hok : Decision.forward fwd self xs mxs pas store = Except.ok r)
    (hx : xs.shape.headD 0 = mxs.length)
    (hpas : ∀ l, pas = some l → l.length = mxs.length)
    (hfwd : FwdShapeOk fwd) :
    ∃ ys actions dists,
      r = Decision.record self ys actions dists mxs store
      ∧ actions.shape.prod = mxs.length
      ∧ dists.shape.headD 0 = mxs.length := by
  unfold Decision.forward at hok
  by_cases hna : self.num_agents > 1
  · rw [if_pos hna] at hok
    cases pas with
    | none => exact Except.noConfusion hok
    | some l =>
        have hl := hpas l rfl
        injection hok with h
        refine ⟨_, _, _, h.symm, ?_, ?_⟩
        · rw [Tensor.cat0_prod_of_unit_rows _
            (multiAgent_actions_cond fwd xs mxs l hfwd)]
          simp only [List.length_map]
          rw [zip3_length, Tensor.split1dim0_length, hx, hl]
          omega
        · rw [Tensor.cat0_headD_of_unit_rows _
            (multiAgent_dists_cond fwd xs mxs l hfwd)]
          simp only [List.length_map]
          rw [zip3_length, Tensor.split1dim0_length, hx, hl]
          omega
  · rw [if_neg hna] at hok
    injection hok with h
    exact ⟨_, _, _, h.symm,
      by rw [(hfwd xs mxs 0).2.1, hx],
      by rw [(hfwd xs mxs 0).2.2, hx]⟩

/-! ### Claims about `Decision.forward` -/

/-- A `_forward` stub used by witnesses: echoes the input, returns one
action per row and a rank-2 generating distribution with one row per
batch row. -/
def fwdW : Tensor → List MetaContainer → Nat → Tensor × Tensor × Tensor :=
  fun x _ _ => (x, ⟨[x.shape.headD 0], [], false⟩, ⟨[x.shape.headD 0, 2], [], false⟩)

theorem fwdW_shape_ok : FwdShapeOk fwdW := by
  intro x m pa
  exact ⟨rfl, by simp [fwdW], rfl⟩

/-- C3: every successful `Decision.forward` call appends, for each sample
of the batch, exactly one entry to each of the four fields `actions`,
`states`, `loss_funcs`, `reward_func` of that sample's metadata container
(all four appended together), so if the four per-step sequences were equal
in length before the call they remain equal after it. -/
theorem forward_appends_once_per_field
    (fwd : Tensor → List MetaContainer → Nat → Tensor × Tensor × Tensor)
    (self : Decision) (xs : Tensor) (mxs : List MetaContainer)
    (pas : Option (List Nat)) (store : RewardStore)
    (r : Tensor × List MetaContainer × Tensor × RewardStore)
    (hok : Decision.forward fwd self xs mxs pas store = Except.ok r)
    (hx : xs.shape.headD 0 = mxs.length)
    (hpas : ∀ l, pas = some l → l.length = mxs.length)
    (hfwd : FwdShapeOk fwd) :
    List.Forall₂ growsByOne r.2.1 mxs
    ∧ ∀ mxN mxO : MetaContainer, growsByOne mxN mxO →
        (mxO.actions.length = mxO.states.length ∧
         mxO.states.length = mxO.loss_funcs.length ∧
         mxO.loss_funcs.length = mxO.reward_func.length) →
        (mxN.actions.length = mxN.states.length ∧
         mxN.states.length = mxN.loss_funcs.length ∧
         mxN.loss_funcs.length = mxN.reward_func.length) := by
  obtain ⟨ys, actions, dists, hr, hA, hD⟩ :=
    forward_ok_coverage fwd self xs mxs pas store r hok hx hpas hfwd
  constructor
  · rw [hr]
    exact Decision.record_forall₂_full self ys actions dists mxs store hA hD
  · intro mxN mxO hg he
    obtain ⟨h1, h2, h3, h4⟩ := hg
    omega

/-- Witness for C3: a single-agent call on a batch of one sample whose
empty container acquires exactly one entry in each field. -/
theorem forward_appends_once_per_field_witness :
    List.Forall₂ growsByOne
      [⟨[⟨[], [], false⟩], [⟨[1, 2], [], false⟩], [7], [0]⟩]
      [⟨[], [], [], []⟩]
    ∧ ∀ mxN mxO : MetaContainer, growsByOne mxN mxO →
        (mxO.actions.length = mxO.states.length ∧
         mxO.states.length = mxO.loss_funcs.length ∧
         mxO.loss_funcs.length = mxO.reward_func.length) →
        (mxN.actions.length = mxN.states.length ∧
         mxN.states.length = mxN.loss_funcs.length ∧
         mxN.loss_funcs.length = mxN.reward_func.length) :=
  forward_appends_once_per_field fwdW ⟨2, 3, 1, 0, true, 0, smoothL1Loss, 7⟩
    ⟨[1], [0], false⟩ [⟨[], [], [], []⟩] none [⟨[]⟩]
    (⟨[1], [0], false⟩,
      [⟨[⟨[], [], false⟩], [⟨[1, 2], [], false⟩], [7], [0]⟩],
      ⟨[1], [], false⟩,
      [⟨[(⟨[1, 2], [], false⟩, ⟨[], [], false⟩)]⟩])
    rfl rfl (by intro l h; cases h) fwdW_shape_ok

/-- C6: for every successful `Decision.forward` call on a batch of size
`n`, the returned actions tensor is the one-dimensional reshape of the
selected actions: rank exactly 1 with length `n` (never a 0-dimensional
scalar). -/
theorem forward_actions_rank1
    (fwd : Tensor → List MetaContainer → Nat → Tensor × Tensor × Tensor)
    (self : Decision) (xs : Tensor) (mxs : List MetaContainer)
    (pas : Option (List Nat)) (store : RewardStore)
    (r : Tensor × List MetaContainer × Tensor × RewardStore)
    (hok : Decision.forward fwd self xs mxs pas store = Except.ok r)
    (hx : xs.shape.headD 0 = mxs.length)
    (hpas : ∀ l, pas = some l → l.length = mxs.length)
    (hfwd : FwdShapeOk fwd) :
    r.2.2.1.shape = [xs.shape.headD 0] ∧ r.2.2.1.shape.length = 1 := by
  obtain ⟨ys, actions, dists, hr, hA, hD⟩ :=
    forward_ok_coverage fwd self xs mxs pas store r hok hx hpas hfwd
  have h : r.2.2.1.shape = [xs.shape.headD 0] := by
    rw [hr, Decision.record_acts_shape self ys actions dists mxs store
      mxs.length hA, hx]
  exact ⟨h, by rw [h]; rfl⟩

/-- Witness for C6: the same single-agent call returns the rank-1 actions
tensor of length 1. -/
theorem forward_actions_rank1_witness :
    (⟨[1], [], false⟩ : Tensor).shape =
        [(⟨[1], [0], false⟩ : Tensor).shape.headD 0]
    ∧ (⟨[1], [], false⟩ : Tensor).shape.length = 1 :=
  forward_actions_rank1 fwdW ⟨2, 3, 1, 0, true, 0, smoothL1Loss, 7⟩
    ⟨[1], [0], false⟩ [⟨[], [], [], []⟩] none [⟨[]⟩]
    (⟨[1], [0], false⟩,
      [⟨[⟨[], [], false⟩], [⟨[1, 2], [], false⟩], [7], [0]⟩],
      ⟨[1], [], false⟩,
      [⟨[(⟨[1, 2], [], false⟩, ⟨[], [], false⟩)]⟩])
    rfl rfl (by intro l h; cases h) fwdW_shape_ok

/-- C4: whenever `num_agents > 1` and `prior_actions` is `None`,
`Decision.forward` raises the documented `ValueError` naming the
`prior_actions` contract before any container is appended or any reward
pair registered (no partial effects: the error is raised before the
recording phase, so no updated containers or reward store are produced). -/
theorem forward_rejects_missing_prior_actions
    (fwd : Tensor → List MetaContainer → Nat → Tensor × Tensor × Tensor)
    (self : Decision) (xs : Tensor) (mxs : List MetaContainer)
    (store : RewardStore) (h : self.num_agents > 1) :
    Decision.forward fwd self xs mxs none store = Except.error priorActionsMsg := by
  unfold Decision.forward
  rw [if_pos h]

/-- Witness for C4 at a concrete two-agent module. -/
theorem forward_rejects_missing_prior_actions_witness :
    Decision.forward fwdW ⟨2, 3, 2, 0, true, 0, smoothL1Loss, 7⟩
      ⟨[2, 1], [5, 6], false⟩ [⟨[], [], [], []⟩, ⟨[], [], [], []⟩] none [⟨[]⟩] =
      Except.error priorActionsMsg :=
  forward_rejects_missing_prior_actions fwdW ⟨2, 3, 2, 0, true, 0, smoothL1Loss, 7⟩
    ⟨[2, 1], [5, 6], false⟩ [⟨[], [], [], []⟩, ⟨[], [], [], []⟩] [⟨[]⟩]
    (by decide)

/-- A `_forward` stub with constant per-row outputs, used by the C5
counterexample. -/
def fwdRowConst : Tensor → List MetaContainer → Nat → Tensor × Tensor × Tensor :=
  fun x _ _ => (x, ⟨[1], [0], false⟩, ⟨[1, 2], [1, 2], false⟩)

/-- Counterexample to C5: with `num_agents = 2`, a batch of two samples and
a non-`None` `prior_actions` of length 1 (shorter than the batch),
`Decision.forward` does NOT fail with a caller error — it returns
successfully, silently processing only the first sample (the second
container comes back untouched while the first grew by one step). -/
theorem forward_accepts_short_prior_actions :
    Decision.forward fwdRowConst ⟨2, 3, 2, 0, true, 0, smoothL1Loss, 7⟩
      ⟨[2, 1], [5, 6], false⟩ [⟨[], [], [], []⟩, ⟨[], [], [], []⟩]
      (some [0]) [⟨[]⟩] =
      Except.ok (⟨[1, 1], [5], false⟩,
        [⟨[⟨[], [0], false⟩], [⟨[1, 2, 1], [1, 2], false⟩], [7], [0]⟩,
         ⟨[], [], [], []⟩],
        ⟨[1], [0], false⟩,
        [⟨[(⟨[1, 2, 1], [1, 2], false⟩, ⟨[], [0], false⟩)]⟩]) := rfl

/-- The multi-agent branch of `Decision.forward` with a well-formed
`_forward` always reaches the recording phase with one action and one
distribution row per `prior_actions` entry (`zip` truncation). -/
theorem forward_multi_reaches_record
    (fwd : Tensor → List MetaContainer → Nat → Tensor × Tensor × Tensor)
    (self : Decision) (xs : Tensor) (mxs : List MetaContainer)
    (l : List Nat) (store : RewardStore)
    (hna : self.num_agents > 1)
    (hx : xs.shape.headD 0 = mxs.length)
    (hl : l.length ≤ mxs.length)
    (hfwd : FwdShapeOk fwd) :
    ∃ ys actions dists,
      Decision.forward fwd self xs mxs (some l) store =
        Except.ok (Decision.record self ys actions dists mxs store)
      ∧ actions.shape.prod = l.length
      ∧ dists.shape.headD 0 = l.length := by
  refine ⟨Tensor.cat0 (((zip3 (Tensor.split1dim0 xs) mxs l).map
      (Decision.rowStep fwd)).map (fun t => t.1)),
    Tensor.cat0 (((zip3 (Tensor.split1dim0 xs) mxs l).map
      (Decision.rowStep fwd)).map (fun t => t.2.1)),
    Tensor.cat0 (((zip3 (Tensor.split1dim0 xs) mxs l).map
      (Decision.rowStep fwd)).map (fun t => t.2.2)), ?_, ?_, ?_⟩
  · unfold Decision.forward
    rw [if_pos hna]
  · rw [Tensor.cat0_prod_of_unit_rows _
      (multiAgent_actions_cond fwd xs mxs l hfwd)]
    simp only [List.length_map]
    rw [zip3_length, Tensor.split1dim0_length, hx]
    omega
  · rw [Tensor.cat0_headD_of_unit_rows _
      (multiAgent_dists_cond fwd xs mxs l hfwd)]
    simp only [List.length_map]
    rw [zip3_length, Tensor.split1dim0_length, hx]
    omega

/-- C5 amended: under `num_agents > 1` the only `prior_actions` validation
is the `None` check; a non-`None` integer sequence shorter than the batch
is accepted without error, and `Decision.forward` silently processes only
the first `len(prior_actions)` samples: their containers grow by one step
while all later containers are returned untouched. -/
theorem forward_truncates_to_prior_actions
    (fwd : Tensor → List MetaContainer → Nat → Tensor × Tensor × Tensor)
    (self : Decision) (xs : Tensor) (mxs : List MetaContainer)
    (l : List Nat) (store : RewardStore)
    (hna : self.num_agents > 1)
    (hx : xs.shape.headD 0 = mxs.length)
    (hl : l.length ≤ mxs.length) (_hl0 : 0 < l.length)
    (hfwd : FwdShapeOk fwd) :
    ∃ ys mxs' acts store',
      Decision.forward fwd self xs mxs (some l) store =
        Except.ok (ys, mxs', acts, store')
      ∧ mxs'.drop l.length = mxs.drop l.length
      ∧ List.Forall₂ growsByOne (mxs'.take l.length) (mxs.take l.length) := by
  obtain ⟨ys, actions, dists, hfw, hA, hD⟩ :=
    forward_multi_reaches_record fwd self xs mxs l store hna hx hl hfwd
  have hR := Decision.record_take_drop self ys actions dists mxs store
    l.length hA hD hl
  refine ⟨(Decision.record self ys actions dists mxs store).1,
    (Decision.record self ys actions dists mxs store).2.1,
    (Decision.record self ys actions dists mxs store).2.2.1,
    (Decision.record self ys actions dists mxs store).2.2.2,
    ?_, hR.1, hR.2⟩
  rw [hfw]

/-- Witness for the amended C5: two-agent module, batch of two, one prior
action; the call succeeds, the first container grows by one step and the
second is untouched. -/
theorem forward_truncates_to_prior_actions_witness :
    ∃ ys mxs' acts store',
      Decision.forward fwdW ⟨2, 3, 2, 0, true, 0, smoothL1Loss, 7⟩
        ⟨[2, 1], [5, 6], false⟩ [⟨[], [], [], []⟩, ⟨[], [], [], []⟩]
        (some [0]) [⟨[]⟩] = Except.ok (ys, mxs', acts, store')
      ∧ mxs'.drop [0].length =
          [(⟨[], [], [], []⟩ : MetaContainer), ⟨[], [], [], []⟩].drop [0].length
      ∧ List.Forall₂ growsByOne (mxs'.take [0].length)
          ([(⟨[], [], [], []⟩ : MetaContainer), ⟨[], [], [], []⟩].take [0].length) :=
  forward_truncates_to_prior_actions fwdW ⟨2, 3, 2, 0, true, 0, smoothL1Loss, 7⟩
    ⟨[2, 1], [5, 6], false⟩ [⟨[], [], [], []⟩, ⟨[], [], [], []⟩] [0] [⟨[]⟩]
    (by decide) rfl (by decide) (by decide) fwdW_shape_ok

/-- Slices along dimension 0 of a concatenation of rank-3 tensors are
rank 3. -/
theorem split_cat0_rank3 (ds : List Tensor)
    (h : ∀ d ∈ ds, d.shape.length = 3) :
    ∀ s ∈ Tensor.split1dim0 (Tensor.cat0 ds), s.shape.length = 3 := by
  cases ds with
  | nil =>
      intro s hs
      simp [Tensor.cat0, Tensor.split1dim0, List.range_succ] at hs
  | cons d0 ds' =>
      intro s hs
      have hshape := Tensor.split1dim0_shape _ s hs
      have h0 : d0.shape.length = 3 := h d0 (List.mem_cons_self d0 ds')
      rw [hshape]
      show (1 :: (Tensor.cat0 (d0 :: ds')).shape.tail).length = 3
      simp only [Tensor.cat0, List.tail_cons, List.length_cons]
      have : d0.shape.tail.length = d0.shape.length - 1 := List.length_tail _
      omega

/-- In the multi-agent branch, when every `_forward` distribution has
rank 2, every normalized per-row distribution has rank 3. -/
theorem multiAgent_dists_rank3
    (fwd : Tensor → List MetaContainer → Nat → Tensor × Tensor × Tensor)
    (xs : Tensor) (mxs : List MetaContainer) (l : List Nat)
    (hfwd2 : ∀ x m pa, (fwd x m pa).2.2.shape.length = 2) :
    ∀ t ∈ ((zip3 (Tensor.split1dim0 xs) mxs l).map
        (Decision.rowStep fwd)).map (fun t => t.2.2),
      t.shape.length = 3 := by
  intro t ht
  rw [List.mem_map] at ht
  obtain ⟨u, hu, rfl⟩ := ht
  rw [List.mem_map] at hu
  obtain ⟨x, hx, rfl⟩ := hu
  show (normalizeDist (fwd x.1 [x.2.1] x.2.2).2.2).shape.length = 3
  exact normalizeDist_rank2 _ (hfwd2 x.1 [x.2.1] x.2.2)

/-- C2 amended: only the multi-agent branch of `Decision.forward`
normalizes the generating distribution; there, every rank-2 per-row
distribution is expanded with one trailing unit dimension, so every state
newly recorded by a multi-agent call has rank exactly 3 (old entries are
left as they were).  The single-agent branch records distributions exactly
as `_forward` returned them (see the accompanying counterexample). -/
theorem forward_multiAgent_records_rank3
    (fwd : Tensor → List MetaContainer → Nat → Tensor × Tensor × Tensor)
    (self : Decision) (xs : Tensor) (mxs : List MetaContainer)
    (l : List Nat) (store : RewardStore)
    (r : Tensor × List MetaContainer × Tensor × RewardStore)
    (hna : self.num_agents > 1)
    (hok : Decision.forward fwd self xs mxs (some l) store = Except.ok r)
    (hfwd2 : ∀ x m pa, (fwd x m pa).2.2.shape.length = 2) :
    List.Forall₂
      (fun mxN mxO => ∀ s ∈ mxN.states, s ∈ mxO.states ∨ s.shape.length = 3)
      r.2.1 mxs := by
  unfold Decision.forward at hok
  rw [if_pos hna] at hok
  injection hok with h
  rw [← h, Decision.record_mxs]
  apply forall₂_zip3_append _ _ (fun c s hs => Or.inl hs)
  intro x hxmem s hs
  simp only [Decision.appendStep, List.mem_append, List.mem_singleton] at hs
  rcases hs with hs | hs
  · exact Or.inl hs
  · right
    subst hs
    have hmem : x.2.1 ∈ Tensor.split1dim0
        (Tensor.cat0 (((zip3 (Tensor.split1dim0 xs) mxs l).map
          (Decision.rowStep fwd)).map (fun t => t.2.2))) :=
      (zip3_mem _ _ _ x hxmem).2.1
    exact split_cat0_rank3 _ (multiAgent_dists_rank3 fwd xs mxs l hfwd2)
      x.2.1 hmem

/-- Witness for the amended C2: a two-agent call whose `_forward` returns
a rank-2 distribution records a rank-3 state. -/
theorem forward_multiAgent_records_rank3_witness :
    List.Forall₂
      (fun mxN mxO => ∀ s ∈ mxN.states, s ∈ mxO.states ∨ s.shape.length = 3)
      ([⟨[⟨[], [], false⟩], [⟨[1, 2, 1], [], false⟩], [7], [0]⟩] :
        List MetaContainer)
      ([⟨[], [], [], []⟩] : List MetaContainer) :=
  forward_multiAgent_records_rank3 fwdW ⟨2, 3, 2, 0, true, 0, smoothL1Loss, 7⟩
    ⟨[1, 1], [5], false⟩ [⟨[], [], [], []⟩] [0] [⟨[]⟩]
    (⟨[1, 1], [5], false⟩,
      [⟨[⟨[], [], false⟩], [⟨[1, 2, 1], [], false⟩], [7], [0]⟩],
      ⟨[1], [], false⟩,
      [⟨[(⟨[1, 2, 1], [], false⟩, ⟨[], [], false⟩)]⟩])
    (by decide) rfl (fun x m pa => rfl)

/-- A `_forward` stub returning a rank-2 generating distribution, used to
exhibit the missing single-agent normalization. -/
def fwdRank2 : Tensor → List MetaContainer → Nat → Tensor × Tensor × Tensor :=
  fun x _ _ => (x, ⟨[1], [0], false⟩, ⟨[1, 2], [3, 4], false⟩)

/-- Counterexample to C2: in the single-agent branch `Decision.forward`
performs no rank normalization — a rank-2 generating distribution is
recorded as-is, so the recorded state has rank 2, not 3. -/
theorem forward_single_agent_records_rank2 :
    Decision.forward fwdRank2 ⟨2, 3, 1, 0, true, 0, smoothL1Loss, 7⟩
      ⟨[1, 1], [5], false⟩ [⟨[], [], [], []⟩] none [⟨[]⟩] =
      Except.ok (⟨[1, 1], [5], false⟩,
        [⟨[⟨[], [0], false⟩], [⟨[1, 2], [3, 4], false⟩], [7], [0]⟩],
        ⟨[1], [0], false⟩,
        [⟨[(⟨[1, 2], [3, 4], false⟩, ⟨[], [0], false⟩)]⟩])
    ∧ (⟨[1, 2], [3, 4], false⟩ : Tensor).shape.length ≠ 3 :=
  ⟨rfl, by decide⟩

/-- C10 amended: because Python evaluates the default argument
`additional_reward_func=PerActionBaseReward()` once at class-definition
time, any two `Decision` modules constructed without passing
`additional_reward_func` hold the SAME default `PerActionBaseReward`
object; a successful `forward` call on the first module registers one
`(dist, action)` pair per batch sample into that shared object, growing
the registry observed through the second module's reference. -/
theorem default_reward_func_shared
    (ns1 if1 na1 : Nat) (e1 : Rat) (dt1 : Bool)
    (blf1 : Tensor → Tensor → Tensor) (lt1 : Nat)
    (ns2 if2 na2 : Nat) (e2 : Rat) (dt2 : Bool)
    (blf2 : Tensor → Tensor → Tensor) (lt2 : Nat)
    (fwd : Tensor → List MetaContainer → Nat → Tensor × Tensor × Tensor)
    (xs : Tensor) (mxs : List MetaContainer) (pas : Option (List Nat))
    (store : RewardStore)
    (r : Tensor × List MetaContainer × Tensor × RewardStore)
    (hok : Decision.forward fwd
      (Decision.init ns1 if1 na1 e1 dt1 none blf1 lt1) xs mxs pas store =
      Except.ok r)
    (hx : xs.shape.headD 0 = mxs.length)
    (hpas : ∀ l, pas = some l → l.length = mxs.length)
    (hfwd : FwdShapeOk fwd)
    (hstore : 0 < store.length) :
    (Decision.init ns1 if1 na1 e1 dt1 none blf1 lt1).rewardRef =
      (Decision.init ns2 if2 na2 e2 dt2 none blf2 lt2).rewardRef
    ∧ registryLenAt r.2.2.2
        (Decision.init ns2 if2 na2 e2 dt2 none blf2 lt2).rewardRef =
      registryLenAt store
          (Decision.init ns2 if2 na2 e2 dt2 none blf2 lt2).rewardRef
        + mxs.length := by
  obtain ⟨ys, actions, dists, hr, hA, hD⟩ :=
    forward_ok_coverage fwd (Decision.init ns1 if1 na1 e1 dt1 none blf1 lt1)
      xs mxs pas store r hok hx hpas hfwd
  refine ⟨rfl, ?_⟩
  rw [hr]
  exact Decision.record_registryLen
    (Decision.init ns1 if1 na1 e1 dt1 none blf1 lt1) ys actions dists mxs
    store mxs.length hA hD (le_refl _) hstore

/-- Witness for the amended C10: a concrete default-constructed module;
after one single-agent forward call on a batch of one, the registry of the
default reward object seen through a second default-constructed module has
grown by one. -/
theorem default_reward_func_shared_witness :
    (Decision.init 2 3 1 0 true none smoothL1Loss 7).rewardRef =
      (Decision.init 4 5 1 1 false none mseLoss 9).rewardRef
    ∧ registryLenAt [⟨[(⟨[1, 2], [], false⟩, ⟨[], [], false⟩)]⟩]
        (Decision.init 4 5 1 1 false none mseLoss 9).rewardRef =
      registryLenAt initStore
          (Decision.init 4 5 1 1 false none mseLoss 9).rewardRef + 1 :=
  default_reward_func_shared 2 3 1 0 true smoothL1Loss 7 4 5 1 1 false mseLoss 9
    fwdW ⟨[1], [0], false⟩ [⟨[], [], [], []⟩] none initStore
    (⟨[1], [0], false⟩,
      [⟨[⟨[], [], false⟩], [⟨[1, 2], [], false⟩], [7], [0]⟩],
      ⟨[1], [], false⟩,
      [⟨[(⟨[1, 2], [], false⟩, ⟨[], [], false⟩)]⟩])
    rfl rfl (by intro l h; cases h) fwdW_shape_ok (by decide)

/-- Counterexample to C10: two modules constructed without
`additional_reward_func` do NOT get fresh `PerActionBaseReward` instances
— they share the single default object, and a forward call on the first
module mutates (registers a pair into) the reward object held by the
second module. -/
theorem default_reward_func_not_fresh :
    (Decision.init 2 3 1 0 true none smoothL1Loss 7).rewardRef =
      (Decision.init 4 5 1 1 false none mseLoss 9).rewardRef
    ∧ Decision.forward fwdRank2 (Decision.init 2 3 1 0 true none smoothL1Loss 7)
        ⟨[1, 1], [5], false⟩ [⟨[], [], [], []⟩] none initStore =
      Except.ok (⟨[1, 1], [5], false⟩,
        [⟨[⟨[], [0], false⟩], [⟨[1, 2], [3, 4], false⟩], [7], [0]⟩],
        ⟨[1], [0], false⟩,
        [⟨[(⟨[1, 2], [3, 4], false⟩, ⟨[], [0], false⟩)]⟩])
    ∧ ([⟨[(⟨[1, 2], [3, 4], false⟩, ⟨[], [0], false⟩)]⟩] :
          RewardStore).getD
        (Decision.init 4 5 1 1 false none mseLoss 9).rewardRef ⟨[]⟩ ≠
      initStore.getD
        (Decision.init 4 5 1 1 false none mseLoss 9).rewardRef ⟨[]⟩ :=
  ⟨rfl, rfl, by decide⟩
